import Mathlib

/-!
Verification of the structural scanner and hierarchy emitter of
`src/Proposal/main.py` (Score-Testing).  The Python code is shallowly
embedded: each regular expression is compiled into a small backtracking
matcher faithful to Python `re` semantics (greedy/lazy repetition order,
left-first alternation, negative lookahead), and `parse_cpp_file` /
`generate_sphinx_needs` become pure Lean functions over the file content
and the element list.  File I/O, logging and directory walking are out of
scope, so `parse_cpp_file` here takes the file content directly.
-/

namespace ScoreTesting

/-! ### Character classes (ASCII fragments of Python `re` classes) -/

/-- Python whitespace (`\s` and `str.strip` default), ASCII fragment. -/
def isPyWS (c : Char) : Bool :=
  c = ' ' || c = '\t' || c = '\n' || c = '\r' || c = '\x0b' || c = '\x0c'

/-- Python `\w`, ASCII fragment: letters, digits, underscore. -/
def isWordCh (c : Char) : Bool := c.isAlphanum || c = '_'

/-- The class `[\w\<\>:\s\*&]` used for the return-type capture. -/
def rtClassCh (c : Char) : Bool :=
  isWordCh c || c = '<' || c = '>' || c = ':' || isPyWS c || c = '*' || c = '&'

/-- The negated class `[^\s(]` used for the name capture. -/
def nameCh (c : Char) : Bool := !(isPyWS c) && c ≠ '('

/-- The negated class `[^)]` used for the parameter capture. -/
def paramCh (c : Char) : Bool := c ≠ ')'

/-- The class `.` (any character but a newline). -/
def anyCh (c : Char) : Bool := c ≠ '\n'

/-! ### Python string primitives -/

/-- Python `str.rstrip()` (ASCII whitespace). -/
def pyRstrip (l : List Char) : List Char := (l.reverse.dropWhile isPyWS).reverse

/-- Python `str.lstrip()` (ASCII whitespace). -/
def pyLstrip (l : List Char) : List Char := l.dropWhile isPyWS

/-- Python `str.strip()` (ASCII whitespace). -/
def pyStripWS (l : List Char) : List Char := pyLstrip (pyRstrip l)

/-- Membership in the character set of `strip('() ')`. -/
def parenSpCh (c : Char) : Bool := c = '(' || c = ')' || c = ' '

/-- Python `str.strip('() ')`. -/
def pyStripParen (l : List Char) : List Char :=
  ((l.dropWhile parenSpCh).reverse.dropWhile parenSpCh).reverse

/-- Python `str.count(c)` for a single character. -/
def countCh (c : Char) (l : List Char) : Nat := (l.filter (· = c)).length

/-- Python `str.lower()` (ASCII). -/
def pyLower (l : List Char) : List Char := l.map Char.toLower

/-- Python `content.split('\n')`: always one more part than newlines. -/
def splitNl : List Char → List (List Char)
  | [] => [[]]
  | c :: cs =>
      if c = '\n' then [] :: splitNl cs
      else
        match splitNl cs with
        | h :: t => (c :: h) :: t
        | [] => [[c]]

/-- Python substring containment (`needle in hay`). -/
def containsSub (needle : List Char) : List Char → Bool
  | [] => needle.isEmpty
  | c :: cs => decide ((c :: cs).take needle.length = needle) || containsSub needle cs

/-- Python `str.replace(pat, rep)`: left-to-right, non-overlapping.
Structural recursion on a fuel argument (kept at least the list length,
so it never runs out) to keep the definition kernel-reducible. -/
def replAux (pat rep : List Char) : Nat → List Char → List Char
  | _, [] => []
  | 0, l => l
  | f + 1, c :: cs =>
      if pat ≠ [] ∧ (c :: cs).take pat.length = pat then
        rep ++ replAux pat rep f (cs.drop (pat.length - 1))
      else
        c :: replAux pat rep f cs

/-- Python `str.replace(pat, rep)` on character lists. -/
def replSub (pat rep l : List Char) : List Char := replAux pat rep l.length l

/-- Python `str.replace` on `String`. -/
def pyReplace (pat rep s : String) : String := String.mk (replSub pat.data rep.data s.data)

/-! ### A regex core faithful to Python `re` backtracking

Every repetition in the four patterns of `main.py` ranges over a single
character class, so repetition is modelled as a choice of how many
class characters to consume, tried longest-first (greedy) or
shortest-first (lazy), exactly as Python's backtracking engine does. -/

/-- Regex abstract syntax: literals, one-character classes, class
repetition, sequencing, prioritized alternation, capturing groups,
negative lookahead and the `$` anchor. -/
inductive Rx where
  | eps : Rx
  | lit : List Char → Rx
  | litI : List Char → Rx
  | cls : (Char → Bool) → Rx
  | star : (Char → Bool) → Bool → Rx
  | seq : Rx → Rx → Rx
  | alt : Rx → Rx → Rx
  | grp : Nat → Rx → Rx
  | nla : Rx → Rx
  | eos : Rx

/-- Capture slots for groups 1..6, as spans into the subject. -/
abbrev Caps := List (Option (Nat × Nat))

def emptyCaps : Caps := List.replicate 6 none

def setCap (n : Nat) (sp : Nat × Nat) (cp : Caps) : Caps := cp.set (n - 1) (some sp)

def getCap (n : Nat) (cp : Caps) : Option (Nat × Nat) := cp.getD (n - 1) none

/-- Case-sensitive literal test at a position. -/
def litAt (cs : List Char) (i : Nat) (s : List Char) : Bool :=
  decide ((cs.drop i).take s.length = s)

/-- Case-insensitive literal test (pattern side given lowercase). -/
def litAtI (cs : List Char) (i : Nat) (s : List Char) : Bool :=
  decide (((cs.drop i).take s.length).map Char.toLower = s)

/-- Length of the run of class characters starting at a position. -/
def runLen (p : Char → Bool) (cs : List Char) (i : Nat) : Nat :=
  ((cs.drop i).takeWhile p).length

/-- Backtracking matcher in continuation style.  The continuation
receives the position after the current node and the captures so far;
alternatives are tried in Python's priority order and the first success
wins. -/
def mat (cs : List Char) : Rx → Nat → Caps → (Nat → Caps → Option (Nat × Caps)) →
    Option (Nat × Caps)
  | .eps, i, cp, k => k i cp
  | .lit s, i, cp, k => if litAt cs i s then k (i + s.length) cp else none
  | .litI s, i, cp, k => if litAtI cs i s then k (i + s.length) cp else none
  | .cls p, i, cp, k =>
      match cs.drop i with
      | [] => none
      | c :: _ => if p c then k (i + 1) cp else none
  | .star p g, i, cp, k =>
      let r := runLen p cs i
      let cands := if g then ((List.range (r + 1)).reverse).map (i + ·)
                   else (List.range (r + 1)).map (i + ·)
      cands.findSome? (fun j => k j cp)
  | .seq a b, i, cp, k => mat cs a i cp (fun j cp2 => mat cs b j cp2 k)
  | .alt a b, i, cp, k =>
      match mat cs a i cp k with
      | some r => some r
      | none => mat cs b i cp k
  | .grp n a, i, cp, k => mat cs a i cp (fun j cp2 => k j (setCap n (i, j) cp2))
  | .nla a, i, cp, k =>
      match mat cs a i cp (fun j cp2 => some (j, cp2)) with
      | some _ => none
      | none => k i cp
  | .eos, i, cp, k => if i = cs.length then k i cp else none

/-- Match anchored at position 0 (all four patterns start with `^` and
the subject is a single line, so `search` coincides with this). -/
def topMatch (rx : Rx) (cs : List Char) : Option (Nat × Caps) :=
  mat cs rx 0 emptyCaps (fun j cp => some (j, cp))

/-- One-or-more repetition of a class (`+` / `+?`). -/
def plus (p : Char → Bool) (g : Bool) : Rx := .seq (.cls p) (.star p g)

/-- Greedy option (`x?`): try the body first, then skip. -/
def ropt (a : Rx) : Rx := .alt a .eps

/-- Sequencing of a token list. -/
def rxcat (l : List Rx) : Rx := l.foldr .seq .eps

/-- A regex that never matches. -/
def rxFail : Rx := .cls (fun _ => false)

/-- Prioritized alternation over literal words. -/
def altWords (l : List String) : Rx := (l.map (fun s => Rx.lit s.data)).foldr .alt rxFail

/-! ### The four patterns of `main.py` -/

/-- Pattern `^(\s*)([\w\<\>:\s\*&]+)\s+(\w+::[^\s(]+)\s*\(([^)]*)\)\s*(const)?\s*(\x7b?)\s*$` (`main.py:20-23`). -/
def METHOD_PATTERN : Rx := rxcat [
  .grp 1 (.star isPyWS true),
  .grp 2 (plus rtClassCh true),
  plus isPyWS true,
  .grp 3 (rxcat [plus isWordCh true, .lit "::".data, plus nameCh true]),
  .star isPyWS true,
  .lit "(".data,
  .grp 4 (.star paramCh true),
  .lit ")".data,
  .star isPyWS true,
  ropt (.grp 5 (.lit "const".data)),
  .star isPyWS true,
  .grp 6 (ropt (.lit "\x7b".data)),
  .star isPyWS true,
  .eos]

/-- Pattern `^(\s*)(?!if|while|for|switch|catch|return)([\w\<\>:\s\*&]+)\s+([^\s(]+)\s*\(([^)]*)\)\s*(const)?\s*(\x7b?)\s*$` (`main.py:25-28`). -/
def FUNCTION_PATTERN : Rx := rxcat [
  .grp 1 (.star isPyWS true),
  .nla (altWords ["if", "while", "for", "switch", "catch", "return"]),
  .grp 2 (plus rtClassCh true),
  plus isPyWS true,
  .grp 3 (plus nameCh true),
  .star isPyWS true,
  .lit "(".data,
  .grp 4 (.star paramCh true),
  .lit ")".data,
  .star isPyWS true,
  ropt (.grp 5 (.lit "const".data)),
  .star isPyWS true,
  .grp 6 (ropt (.lit "\x7b".data)),
  .star isPyWS true,
  .eos]

/-- Pattern `^\s*(if|else if|else)\s*(\(.*\))?\s*\x7b?` with `re.IGNORECASE` (`main.py:30-33`). -/
def CONDITION_PATTERN : Rx := rxcat [
  .star isPyWS true,
  .grp 1 (.alt (.litI "if".data) (.alt (.litI "else if".data) (.litI "else".data))),
  .star isPyWS true,
  ropt (.grp 2 (rxcat [.lit "(".data, .star anyCh true, .lit ")".data])),
  .star isPyWS true,
  ropt (.lit "\x7b".data)]

/-- Pattern `^\s*return\s+(.+?)\s*;` with `re.IGNORECASE` (`main.py:35-38`). -/
def RETURN_PATTERN : Rx := rxcat [
  .star isPyWS true,
  .litI "return".data,
  plus isPyWS true,
  .grp 1 (plus anyCh false),
  .star isPyWS true,
  .lit ";".data]

/-! ### Data model of the scanner -/

/-- One `ConditionRecord` dict (`type`, `condition`, `line`). -/
structure CondR where
  type_ : String
  condition : String
  line : Nat
deriving DecidableEq, Repr

/-- One `ReturnRecord` dict (`value`, `line`). -/
structure RetR where
  value : String
  line : Nat
deriving DecidableEq, Repr

/-- One element dict as built at `main.py:102-110`.  `parameters` is
`Option` because the code stores `groups[4]`, the `(const)?` capture,
which is Python `None` when absent. -/
structure Elem where
  type_ : String
  name : String
  return_type : String
  parameters : Option String
  line : Nat
  conditions : List CondR
  returns : List RetR
deriving DecidableEq, Repr

/-- Text of a capture group, as `match.group(n)`. -/
def capStr (cs : List Char) (cp : Caps) (n : Nat) : Option (List Char) :=
  match getCap n cp with
  | some sp => some ((cs.drop sp.1).take (sp.2 - sp.1))
  | none => none

/-- The element dict built from `match.groups()` (`main.py:99-110`).
Note that `match.groups()` is a 0-indexed 6-tuple, so `groups[3]` is the
parameter capture (group 4), `groups[2]` the name capture (group 3) and
`groups[4]` the `(const)?` capture (group 5); the embedding reproduces
the source's indices exactly. -/
def mkElemFromCaps (fromMethod : Bool) (cs : List Char) (cp : Caps) (lineNum : Nat) : Elem :=
  let g3 := (capStr cs cp 3).getD []
  let g4 := (capStr cs cp 4).getD []
  let g5 := capStr cs cp 5
  let is_method := if fromMethod then containsSub "::".data g4 else false
  { type_ := if is_method then "method" else "function"
    name := String.mk g4
    return_type := String.mk (pyStripWS g3)
    parameters := g5.map String.mk
    line := lineNum
    conditions := []
    returns := [] }

/-- Embedding of `METHOD_PATTERN.search(raw_line) or FUNCTION_PATTERN.search(raw_line)`
followed by the dict construction. -/
def sigMatch (cs : List Char) (lineNum : Nat) : Option Elem :=
  match topMatch METHOD_PATTERN cs with
  | some rc => some (mkElemFromCaps true cs rc.2 lineNum)
  | none =>
      match topMatch FUNCTION_PATTERN cs with
      | some rc => some (mkElemFromCaps false cs rc.2 lineNum)
      | none => none

/-- Embedding of `CONDITION_PATTERN.match(raw_line)` and extraction of
`(cond_type, condition)` (`main.py:70-73`). -/
def condMatch (cs : List Char) : Option (String × String) :=
  match topMatch CONDITION_PATTERN cs with
  | none => none
  | some rc =>
      let ty := String.mk (pyLower ((capStr cs rc.2 1).getD []))
      let cond :=
        match capStr cs rc.2 2 with
        | some g2 => String.mk (pyStripParen g2)
        | none => ""
      some (ty, cond)

/-- Embedding of `RETURN_PATTERN.match(raw_line)` and extraction of the stripped
return value (`main.py:84-86`). -/
def retMatch (cs : List Char) : Option String :=
  match topMatch RETURN_PATTERN cs with
  | none => none
  | some rc => some (String.mk (pyStripWS ((capStr cs rc.2 1).getD [])))

/-! ### The scanner state machine (`parse_cpp_file`) -/

/-- Loop state of `parse_cpp_file`: the shrinking `unprocessed` set, the
already-appended elements (the currently open one kept separately so it
can still be mutated), and `bracket_depth`. -/
structure ScanSt where
  unprocessed : Finset Nat
  closedElems : List Elem
  current : Option Elem
  bracket_depth : Int
deriving DecidableEq

/-- The body of the `for line_num, line in enumerate(lines, 1)` loop
(`main.py:53-119`), for one line. -/
def stepLine (st : ScanSt) (lineNum : Nat) (line : List Char) : ScanSt :=
  let raw_line := pyRstrip line
  match st.current with
  | some cf =>
      let d : Int := st.bracket_depth + (countCh '\x7b' line : Int) - (countCh '\x7d' line : Int)
      if d ≤ 0 then
        { st with current := none, closedElems := st.closedElems ++ [cf], bracket_depth := 0 }
      else
        match condMatch raw_line with
        | some tc =>
            { st with
              current := some { cf with conditions :=
                cf.conditions ++ [{ type_ := tc.1, condition := tc.2, line := lineNum }] }
              unprocessed := st.unprocessed.erase lineNum
              bracket_depth := d }
        | none =>
            match retMatch raw_line with
            | some v =>
                { st with
                  current := some { cf with returns := cf.returns ++ [{ value := v, line := lineNum }] }
                  unprocessed := st.unprocessed.erase lineNum
                  bracket_depth := d }
            | none => { st with bracket_depth := d }
  | none =>
      match sigMatch raw_line lineNum with
      | some e =>
          { st with
            current := some e
            bracket_depth := (countCh '\x7b' line : Int)
            unprocessed := st.unprocessed.erase lineNum }
      | none => st

/-- Folding the loop body over the remaining lines, starting at a given
1-based line number. -/
def scanLines : ScanSt → Nat → List (List Char) → ScanSt
  | st, _, [] => st
  | st, i, l :: ls => scanLines (stepLine st i l) (i + 1) ls

/-- Initial loop state: `unprocessed = set(range(1, len(lines)+1))`. -/
def initSt (n : Nat) : ScanSt :=
  { unprocessed := Finset.Icc 1 n, closedElems := [], current := none, bracket_depth := 0 }

/-- Embedding of `parse_cpp_file`, with the file content passed directly (the read
itself is out-of-scope I/O). -/
def parse_cpp_file (content : String) : ScanSt :=
  let lines := splitNl content.data
  scanLines (initSt lines.length) 1 lines

/-- The `elements` list returned by `parse_cpp_file`: elements are
appended at creation, so the open one (if any) is last. -/
def scanElems (st : ScanSt) : List Elem := st.closedElems ++ st.current.toList

def parseElems (content : String) : List Elem := scanElems (parse_cpp_file content)

def parseUnprocessed (content : String) : Finset Nat := (parse_cpp_file content).unprocessed

/-! ### The hierarchy emitter (`generate_sphinx_needs`)

Each `.. need::` block written by the source is modelled as one `Need`
record; the two output files become the two record lists. -/

/-- One emitted `.. need::` block. -/
structure Need where
  id : String
  type_ : String
  name : String
  description : Option String
  parent : Option String
  links : List String
deriving DecidableEq, Repr

/-- Python f-string rendering of a possibly-`None` value. -/
def fmtOpt : Option String → String
  | some s => s
  | none => "None"

/-- Identifier computation: the string impl_ followed by the element name with the scope separator replaced by a double underscore (`main.py:132`). -/
def mainIdOf (e : Elem) : String := "impl_" ++ pyReplace "::" "__" e.name

/-- The implementation entity of one element (`main.py:133-138`). -/
def implNeedOf (e : Elem) : Need :=
  { id := mainIdOf e
    type_ := e.type_
    name := e.name
    description := some (e.return_type ++ " " ++ e.name ++ "(" ++ fmtOpt e.parameters ++ ")")
    parent := none
    links := [] }

/-- The condition entities, `enumerate(element['conditions'], 1)`
(`main.py:141-148`). -/
def condNeedsOf (e : Elem) : List Need :=
  e.conditions.enum.map (fun ic =>
    { id := mainIdOf e ++ "_cond_" ++ toString (ic.1 + 1)
      type_ := "condition"
      name := ic.2.type_ ++ " " ++ ic.2.condition
      description := none
      parent := some (mainIdOf e)
      links := [] })

/-- The return entities, `enumerate(element['returns'], 1)`
(`main.py:151-158`). -/
def retNeedsOf (e : Elem) : List Need :=
  e.returns.enum.map (fun ir =>
    { id := mainIdOf e ++ "_ret_" ++ toString (ir.1 + 1)
      type_ := "return"
      name := ir.2.value
      description := none
      parent := some (mainIdOf e)
      links := [] })

/-- The test entity of one element with its `:links:` lines: first the
implementation id, then `_cond_{i+1}` for `i in range(len(conditions))`,
then `_ret_{i+1}` (`main.py:161-176`). -/
def testNeedOf (e : Elem) : Need :=
  { id := "test_" ++ mainIdOf e
    type_ := "test"
    name := "Test " ++ e.name
    description := none
    parent := none
    links := mainIdOf e ::
      ((List.range e.conditions.length).map (fun i => mainIdOf e ++ "_cond_" ++ toString (i + 1)) ++
       (List.range e.returns.length).map (fun i => mainIdOf e ++ "_ret_" ++ toString (i + 1))) }

/-- Embedding of `generate_sphinx_needs`: the implementation document and the test
document, as record lists in emission order. -/
def generate_sphinx_needs (els : List Elem) : List Need × List Need :=
  (els.flatMap (fun e => implNeedOf e :: (condNeedsOf e ++ retNeedsOf e)), els.map testNeedOf)

/-! ### Helper lemmas -/

/-- Mapping a function of the index over `enum` is mapping it over the
index range. -/
lemma enum_map_index {α β : Type} (l : List α) (g : Nat → β) :
    l.enum.map (fun ic => g ic.1) = (List.range l.length).map g := by
  rw [← List.enum_map_fst l, List.map_map]
  rfl

/-- The close branch of the scanner loop (`main.py:62-67`): when an
element is open and the updated depth is non-positive, the element is
finalized, the depth resets, and — notably — `unprocessed` is untouched. -/
lemma stepLine_close (st : ScanSt) (cf : Elem) (ln : Nat) (l : List Char)
    (hcur : st.current = some cf)
    (hd : st.bracket_depth + (countCh '\x7b' l : Int) - (countCh '\x7d' l : Int) ≤ 0) :
    stepLine st ln l =
      { st with current := none, closedElems := st.closedElems ++ [cf], bracket_depth := 0 } := by
  unfold stepLine
  rw [hcur]
  simp [hd]

/-! ### Concrete elements used by witnesses and counterexamples -/

/-- A closed element with one condition and one return, used to witness
emitter facts. -/
def sampleElem : Elem :=
  { type_ := "function", name := "foo", return_type := "int", parameters := some ""
    line := 1, conditions := [], returns := [] }

def dupElemA : Elem := sampleElem

def dupElemB : Elem := { sampleElem with line := 5 }

/-- An open-element state with depth 0, as left behind by a signature
line carrying no opening brace. -/
def openDepth0St : ScanSt :=
  { unprocessed := (Finset.Icc 1 2).erase 1, closedElems := []
    current := some { sampleElem with name := "", return_type := "foo", parameters := none }
    bracket_depth := 0 }

/-- An open-element state with depth 1, for close-branch and
return-shape witnesses. -/
def openDepth1St : ScanSt :=
  { unprocessed := (Finset.Icc 1 5).erase 1, closedElems := []
    current := some sampleElem, bracket_depth := 1 }

/-! ### Claim theorems -/

/-- C1.  On the spec's scenario line `int Foo::bar(int x) const {` at
line 10 with no element open, the scanner does create an element with
`start_line` 10 and depth 1, but — because the code indexes the 0-based
`match.groups()` tuple with 1-based group numbers — its kind is
`function` (not Method), its name is the parameter text `int x` (not
`Foo::bar`), its return type is `Foo::bar` (not `int`) and its
parameters field is the `const` capture (not `int x`).  This theorem
evaluates the code at the failing input. -/
theorem c1_method_scenario_off_by_one :
    stepLine (initSt 20) 10 "int Foo::bar(int x) const \x7b".data =
      { unprocessed := (Finset.Icc 1 20).erase 10
        closedElems := []
        current := some { type_ := "function", name := "int x", return_type := "Foo::bar"
                          parameters := some "const", line := 10, conditions := []
                          returns := [] }
        bracket_depth := 1 } := by
  decide

/-- C2.  A produced element whose stored name contains the
scope-qualifier `::` can nevertheless have kind `function`: on
`int foo(std::string s) {` the code stores the parameter capture
`std::string s` as the name (0-based `groups[3]` is group 4) and
classifies the element as a function, refuting "kind is Method iff the
captured name contains `::`". -/
theorem c2_kind_name_mismatch :
    (sigMatch "int foo(std::string s) \x7b".data 1).map
      (fun e => (e.type_, containsSub "::".data e.name.data)) =
      some ("function", true) := by
  decide

/-- C3 counterexample.  For input `int foo()` then `return 1;`, the
signature line opens the element at depth 0, and the very next line —
which has no braces and would match the return pattern — closes the
element instead of being tested: no ReturnRecord is produced, the
element is closed without any closing brace ever being seen, and line 2
stays unprocessed. -/
theorem c3_element_does_not_stay_open :
    (parse_cpp_file "int foo()\nreturn 1;").current = none ∧
    (parseElems "int foo()\nreturn 1;").flatMap Elem.returns = [] ∧
    retMatch (pyRstrip "return 1;".data) = some "1" ∧
    (parse_cpp_file "int foo()\nreturn 1;").unprocessed = {2} := by
  refine ⟨by decide, by decide, by decide, by decide⟩

/-- C3 as amended.  A signature line with zero opening braces starts
the element at depth 0, and the element does not stay open: the depth
test runs before the condition/return tests, so on the next processed
line whose braces do not lift the depth above zero the element is
closed at once, and that line is neither tested as a condition or
return nor removed from `unprocessed_lines`. -/
theorem c3_amended_depth0_closes_immediately (st : ScanSt) (cf : Elem) (ln : Nat)
    (l : List Char) (hcur : st.current = some cf) (hdep : st.bracket_depth = 0)
    (hbr : countCh '\x7b' l ≤ countCh '\x7d' l) :
    stepLine st ln l =
      { st with current := none, closedElems := st.closedElems ++ [cf], bracket_depth := 0 } := by
  apply stepLine_close st cf ln l hcur
  rw [hdep]
  omega

/-- C3 amended, witness: the open-depth-0 state closes on a braceless
line. -/
theorem c3_amended_witness :
    (openDepth0St.current =
        some { sampleElem with name := "", return_type := "foo", parameters := none } ∧
      openDepth0St.bracket_depth = 0 ∧
      countCh '\x7b' "return 1;".data ≤ countCh '\x7d' "return 1;".data) ∧
    stepLine openDepth0St 2 "return 1;".data =
      { openDepth0St with
        current := none,
        closedElems := [{ sampleElem with name := "", return_type := "foo", parameters := none }],
        bracket_depth := 0 } :=
  ⟨⟨rfl, rfl, by decide⟩,
    c3_amended_depth0_closes_immediately openDepth0St _ 2 "return 1;".data rfl rfl (by decide)⟩

/-- C4 counterexample.  For the three-line input
`int Foo::bar(int x) const {` / `return x + 1;` / `}`, the final `}`
closes the element but its line number 3 is NOT excluded from the final
`unprocessed_lines` set: the close branch executes `continue` without
discarding the line. -/
theorem c4_closing_line_not_excluded :
    (parse_cpp_file "int Foo::bar(int x) const \x7b\nreturn x + 1;\n\x7d").current = none ∧
    (parse_cpp_file "int Foo::bar(int x) const \x7b\nreturn x + 1;\n\x7d").closedElems.length = 1 ∧
    3 ∈ (parse_cpp_file "int Foo::bar(int x) const \x7b\nreturn x + 1;\n\x7d").unprocessed := by
  refine ⟨by decide, by decide, by decide⟩

/-- C4 as amended.  When a line brings the brace depth to zero or below
while an element is open, the element is closed on that line, but the
line number is not removed from `unprocessed_lines`: the closing step
leaves the unprocessed set unchanged, so the closing line remains in
the final set. -/
theorem c4_amended_close_keeps_unprocessed (st : ScanSt) (cf : Elem) (ln : Nat)
    (l : List Char) (hcur : st.current = some cf)
    (hd : st.bracket_depth + (countCh '\x7b' l : Int) - (countCh '\x7d' l : Int) ≤ 0) :
    (stepLine st ln l).current = none ∧
    (stepLine st ln l).closedElems = st.closedElems ++ [cf] ∧
    (stepLine st ln l).unprocessed = st.unprocessed := by
  rw [stepLine_close st cf ln l hcur hd]
  exact ⟨rfl, rfl, rfl⟩

/-- C4 amended, witness: a lone `}` at depth 1 closes the element and
leaves the unprocessed set untouched. -/
theorem c4_amended_witness :
    (openDepth1St.current = some sampleElem ∧
      openDepth1St.bracket_depth + (countCh '\x7b' "\x7d".data : Int) -
        (countCh '\x7d' "\x7d".data : Int) ≤ 0) ∧
    ((stepLine openDepth1St 3 "\x7d".data).current = none ∧
      (stepLine openDepth1St 3 "\x7d".data).closedElems = [sampleElem] ∧
      (stepLine openDepth1St 3 "\x7d".data).unprocessed = openDepth1St.unprocessed) :=
  ⟨⟨rfl, by decide⟩,
    c4_amended_close_keeps_unprocessed openDepth1St sampleElem 3 "\x7d".data rfl (by decide)⟩

/-- C5 counterexample.  Two distinct elements with the same name
receive the same implementation identifier: the identifier is derived
from the name alone, so uniqueness fails for the emitted document. -/
theorem c5_duplicate_names_collide :
    dupElemA ≠ dupElemB ∧
    (generate_sphinx_needs [dupElemA, dupElemB]).1.map Need.id =
      ["impl_foo", "impl_foo"] ∧
    ¬ ((generate_sphinx_needs [dupElemA, dupElemB]).1.map Need.id).Nodup := by
  refine ⟨by decide, by decide, by decide⟩

/-- C9.  The scanner is a pure function of the input text: equal
contents produce identical scan states (elements with equal fields in
equal order, and the same unprocessed set). -/
theorem c9_scanner_deterministic (s t : String) (h : s = t) :
    parse_cpp_file s = parse_cpp_file t := by
  rw [h]

/-- C9 witness at a concrete content. -/
theorem c9_scanner_deterministic_witness :
    ("int foo()\nreturn 1;" : String) = "int foo()\nreturn 1;" ∧
    parse_cpp_file "int foo()\nreturn 1;" = parse_cpp_file "int foo()\nreturn 1;" :=
  ⟨rfl, c9_scanner_deterministic "int foo()\nreturn 1;" "int foo()\nreturn 1;" rfl⟩

/-- C5 as amended.  Implementation identifiers are deterministic
functions of the element name alone (`impl_` + the name with `::`
replaced by `__`, no randomness and no position): two elements receive
the same implementation identifier exactly when their names agree after
the separator replacement, so uniqueness holds only for distinct
(replaced) names. -/
theorem c5_amended_id_determined_by_name (e1 e2 : Elem) :
    mainIdOf e1 = mainIdOf e2 ↔
      pyReplace "::" "__" e1.name = pyReplace "::" "__" e2.name := by
  constructor
  · intro h
    have hd := congrArg String.data h
    simp only [mainIdOf, String.data_append] at hd
    exact String.ext (List.append_cancel_left hd)
  · intro h
    simp only [mainIdOf, h]

/-- C7.  The emitter writes exactly one test entity per element, and
its `:links:` list is the implementation entity id followed by the ids
of the element's condition entities and then its return entities, in
emission order — `1 + |conditions| + |returns|` links in total. -/
theorem c7_test_entity_links (els : List Elem) (e : Elem) :
    (generate_sphinx_needs els).2 = els.map testNeedOf ∧
    (testNeedOf e).links =
      (implNeedOf e).id :: ((condNeedsOf e).map Need.id ++ (retNeedsOf e).map Need.id) ∧
    (testNeedOf e).links.length = 1 + e.conditions.length + e.returns.length := by
  refine ⟨rfl, ?_, ?_⟩
  · have hc := enum_map_index e.conditions
      (fun i => mainIdOf e ++ "_cond_" ++ toString (i + 1))
    have hr := enum_map_index e.returns
      (fun i => mainIdOf e ++ "_ret_" ++ toString (i + 1))
    simp only [testNeedOf, implNeedOf, condNeedsOf, retNeedsOf, List.map_map, ← hc, ← hr]
    rfl
  · simp only [testNeedOf, List.length_cons, List.length_append, List.length_map,
      List.length_range]
    omega

/-! ### Lines consumed by recognized constructs -/

/-- The line numbers attributed to one element: its signature line and
the lines of its conditions and returns. -/
def elemLines (e : Elem) : Finset Nat :=
  insert e.line ((e.conditions.map CondR.line).toFinset ∪ (e.returns.map RetR.line).toFinset)

/-- All lines attributed to a list of elements. -/
def consumedList (els : List Elem) : Finset Nat := els.foldr (fun e a => elemLines e ∪ a) ∅

/-- All lines attributed to recognized constructs in a scan state. -/
def consumedOf (st : ScanSt) : Finset Nat := consumedList (scanElems st)

lemma consumedList_append (xs ys : List Elem) :
    consumedList (xs ++ ys) = consumedList xs ∪ consumedList ys := by
  induction xs with
  | nil => simp [consumedList]
  | cons x xs ih =>
      simp only [consumedList, List.cons_append, List.foldr_cons] at ih ⊢
      rw [ih, Finset.union_assoc]

/-- A successful signature match yields a fresh element at the current
line with empty condition and return lists (`main.py:102-110`). -/
lemma sigMatch_shape (cs : List Char) (i : Nat) (e : Elem) (h : sigMatch cs i = some e) :
    e.line = i ∧ e.conditions = [] ∧ e.returns = [] := by
  unfold sigMatch at h
  cases hm : topMatch METHOD_PATTERN cs with
  | some rc => rw [hm] at h; injection h with h; subst h; exact ⟨rfl, rfl, rfl⟩
  | none =>
      rw [hm] at h
      cases hf : topMatch FUNCTION_PATTERN cs with
      | some rc => rw [hf] at h; injection h with h; subst h; exact ⟨rfl, rfl, rfl⟩
      | none => rw [hf] at h; exact absurd h (by simp)

/-- Appending a condition record adds exactly its line to the element's
attributed lines. -/
lemma elemLines_append_cond (cf : Elem) (c : CondR) :
    elemLines { cf with conditions := cf.conditions ++ [c] } = insert c.line (elemLines cf) := by
  simp only [elemLines, List.map_append, List.map_cons, List.map_nil, List.toFinset_append,
    List.toFinset_cons, List.toFinset_nil, insert_emptyc_eq]
  rw [Finset.union_comm (cf.conditions.map CondR.line).toFinset, ← Finset.insert_eq,
    Finset.insert_union, Finset.Insert.comm]

/-- Appending a return record adds exactly its line to the element's
attributed lines. -/
lemma elemLines_append_ret (cf : Elem) (r : RetR) :
    elemLines { cf with returns := cf.returns ++ [r] } = insert r.line (elemLines cf) := by
  simp only [elemLines, List.map_append, List.map_cons, List.map_nil, List.toFinset_append,
    List.toFinset_cons, List.toFinset_nil, insert_emptyc_eq]
  rw [Finset.union_comm (cf.returns.map RetR.line).toFinset, ← Finset.insert_eq,
    Finset.union_insert, Finset.Insert.comm]

lemma consumedList_singleton_cond (cf : Elem) (c : CondR) :
    consumedList [{ cf with conditions := cf.conditions ++ [c] }] =
      insert c.line (consumedList [cf]) := by
  simp only [consumedList, List.foldr_cons, List.foldr_nil, Finset.union_empty]
  exact elemLines_append_cond cf c

lemma consumedList_singleton_ret (cf : Elem) (r : RetR) :
    consumedList [{ cf with returns := cf.returns ++ [r] }] =
      insert r.line (consumedList [cf]) := by
  simp only [consumedList, List.foldr_cons, List.foldr_nil, Finset.union_empty]
  exact elemLines_append_ret cf r

/-- One scanner step either leaves both the unprocessed set and the
consumed-lines set unchanged, or removes the current line from the
former and adds it to the latter — never anything else. -/
lemma stepLine_unprocessed_consumed (st : ScanSt) (i : Nat) (l : List Char) :
    ((stepLine st i l).unprocessed = st.unprocessed ∧
      consumedOf (stepLine st i l) = consumedOf st) ∨
    ((stepLine st i l).unprocessed = st.unprocessed.erase i ∧
      consumedOf (stepLine st i l) = insert i (consumedOf st)) := by
  cases hc : st.current with
  | none =>
      cases hs : sigMatch (pyRstrip l) i with
      | none => exact Or.inl ⟨by simp [stepLine, hc, hs], by simp [consumedOf, scanElems, stepLine, hc, hs]⟩
      | some e =>
          refine Or.inr ⟨by simp [stepLine, hc, hs], ?_⟩
          obtain ⟨hl, hcs, hrs⟩ := sigMatch_shape _ _ _ hs
          have h1 : consumedOf (stepLine st i l) = consumedList (st.closedElems ++ [e]) := by
            simp [consumedOf, scanElems, stepLine, hc, hs]
          have h2 : consumedOf st = consumedList st.closedElems := by
            simp [consumedOf, scanElems, hc, consumedList]
          have h3 : consumedList [e] = {i} := by
            simp [consumedList, elemLines, hl, hcs, hrs]
          rw [h1, h2, consumedList_append, h3, Finset.union_comm, ← Finset.insert_eq]
  | some cf =>
      by_cases hd : st.bracket_depth + (countCh '\x7b' l : Int) - (countCh '\x7d' l : Int) ≤ 0
      · exact Or.inl ⟨by simp [stepLine, hc, hd], by simp [consumedOf, scanElems, stepLine, hc, hd]⟩
      · cases hcm : condMatch (pyRstrip l) with
        | some tc =>
            refine Or.inr ⟨by simp [stepLine, hc, hd, hcm], ?_⟩
            have h1 : consumedOf (stepLine st i l) = consumedList (st.closedElems ++
                [{ cf with conditions :=
                    cf.conditions ++ [{ type_ := tc.1, condition := tc.2, line := i }] }]) := by
              simp [consumedOf, scanElems, stepLine, hc, hd, hcm]
            have h2 : consumedOf st = consumedList (st.closedElems ++ [cf]) := by
              simp [consumedOf, scanElems, hc]
            rw [h1, h2, consumedList_append, consumedList_append,
              consumedList_singleton_cond cf { type_ := tc.1, condition := tc.2, line := i },
              Finset.union_insert]
        | none =>
            cases hrm : retMatch (pyRstrip l) with
            | some v =>
                refine Or.inr ⟨by simp [stepLine, hc, hd, hcm, hrm], ?_⟩
                have h1 : consumedOf (stepLine st i l) = consumedList (st.closedElems ++
                    [{ cf with returns := cf.returns ++ [{ value := v, line := i }] }]) := by
                  simp [consumedOf, scanElems, stepLine, hc, hd, hcm, hrm]
                have h2 : consumedOf st = consumedList (st.closedElems ++ [cf]) := by
                  simp [consumedOf, scanElems, hc]
                rw [h1, h2, consumedList_append, consumedList_append,
                  consumedList_singleton_ret cf { value := v, line := i },
                  Finset.union_insert]
            | none =>
                exact Or.inl ⟨by simp [stepLine, hc, hd, hcm, hrm],
                  by simp [consumedOf, scanElems, stepLine, hc, hd, hcm, hrm]⟩

/-- Main scan invariant: the unprocessed set is always the full line
range minus the consumed lines, and consumed lines stay below the
cursor. -/
lemma scanLines_partition (ls : List (List Char)) (st : ScanSt) (i n : Nat)
    (hL : 1 ≤ i)
    (hU : st.unprocessed = Finset.Icc 1 n \ consumedOf st)
    (hC : consumedOf st ⊆ Finset.Icc 1 (i - 1))
    (hn : i - 1 + ls.length ≤ n) :
    (scanLines st i ls).unprocessed = Finset.Icc 1 n \ consumedOf (scanLines st i ls) ∧
    consumedOf (scanLines st i ls) ⊆ Finset.Icc 1 n := by
  induction ls generalizing st i with
  | nil =>
      refine ⟨hU, hC.trans (Finset.Icc_subset_Icc le_rfl ?_)⟩
      omega
  | cons l ls ih =>
      simp only [scanLines]
      have hlen : (l :: ls).length = ls.length + 1 := rfl
      cases stepLine_unprocessed_consumed st i l with
      | inl h =>
          refine ih (stepLine st i l) (i + 1) (by omega) (by rw [h.1, h.2]; exact hU) ?_ ?_
          · rw [h.2]
            exact hC.trans (Finset.Icc_subset_Icc le_rfl (by omega))
          · rw [hlen] at hn; omega
      | inr h =>
          refine ih (stepLine st i l) (i + 1) (by omega) ?_ ?_ ?_
          · rw [h.1, h.2, hU, Finset.erase_eq]
            ext x
            simp only [Finset.mem_sdiff, Finset.mem_singleton, Finset.mem_insert]
            tauto
          · rw [h.2]
            intro x hx
            rcases Finset.mem_insert.mp hx with hx | hx
            · subst hx; simp; omega
            · have := hC hx; simp at this ⊢; omega
          · rw [hlen] at hn; omega

/-- C6.  Coverage partition: for every input text, the final
`unprocessed_lines` set and the set of lines attributed to recognized
constructs (signatures, conditions, returns) are disjoint and together
cover exactly the file's line numbers. -/
theorem c6_coverage_partition (content : String) :
    parseUnprocessed content ∪ consumedOf (parse_cpp_file content) =
      Finset.Icc 1 (splitNl content.data).length ∧
    Disjoint (parseUnprocessed content) (consumedOf (parse_cpp_file content)) := by
  have h := scanLines_partition (splitNl content.data) (initSt (splitNl content.data).length)
    1 (splitNl content.data).length le_rfl
    (by simp [initSt, consumedOf, scanElems, consumedList])
    (by simp [consumedOf, scanElems, initSt, consumedList])
    (by omega)
  have hpe : parse_cpp_file content =
      scanLines (initSt (splitNl content.data).length) 1 (splitNl content.data) := rfl
  constructor
  · rw [parseUnprocessed, hpe, h.1]
    exact Finset.sdiff_union_of_subset h.2
  · rw [parseUnprocessed, hpe, h.1]
    exact Finset.sdiff_disjoint

/-- One scanner step leaves the start-line list of the produced
elements unchanged, or extends it with the current line number. -/
lemma stepLine_lines (st : ScanSt) (i : Nat) (l : List Char) :
    (scanElems (stepLine st i l)).map Elem.line = (scanElems st).map Elem.line ∨
    (scanElems (stepLine st i l)).map Elem.line = (scanElems st).map Elem.line ++ [i] := by
  cases hc : st.current with
  | none =>
      cases hs : sigMatch (pyRstrip l) i with
      | none => exact Or.inl (by simp [stepLine, hc, hs])
      | some e =>
          refine Or.inr ?_
          obtain ⟨hl, -, -⟩ := sigMatch_shape _ _ _ hs
          simp [scanElems, stepLine, hc, hs, hl]
  | some cf =>
      by_cases hd : st.bracket_depth + (countCh '\x7b' l : Int) - (countCh '\x7d' l : Int) ≤ 0
      · exact Or.inl (by simp [scanElems, stepLine, hc, hd])
      · cases hcm : condMatch (pyRstrip l) with
        | some tc => exact Or.inl (by simp [scanElems, stepLine, hc, hd, hcm])
        | none =>
            cases hrm : retMatch (pyRstrip l) with
            | some v => exact Or.inl (by simp [scanElems, stepLine, hc, hd, hcm, hrm])
            | none => exact Or.inl (by simp [scanElems, stepLine, hc, hd, hcm, hrm])

/-- Scan invariant for start lines: sortedness plus the bound that all
recorded start lines lie strictly below the cursor. -/
lemma scanLines_sorted (ls : List (List Char)) (st : ScanSt) (i : Nat)
    (hP : ((scanElems st).map Elem.line).Pairwise (· < ·))
    (hB : ∀ x ∈ (scanElems st).map Elem.line, x < i) :
    ((scanElems (scanLines st i ls)).map Elem.line).Pairwise (· < ·) := by
  induction ls generalizing st i with
  | nil => exact hP
  | cons l ls ih =>
      simp only [scanLines]
      cases stepLine_lines st i l with
      | inl h =>
          refine ih (stepLine st i l) (i + 1) (by rw [h]; exact hP) ?_
          intro x hx
          rw [h] at hx
          exact (hB x hx).trans (by omega)
      | inr h =>
          refine ih (stepLine st i l) (i + 1) ?_ ?_
          · rw [h, List.pairwise_append]
            exact ⟨hP, List.pairwise_singleton _ _, fun x hx y hy => by
              simp at hy; subst hy; exact hB x hx⟩
          · intro x hx
            rw [h, List.mem_append] at hx
            rcases hx with hx | hx
            · exact (hB x hx).trans (by omega)
            · simp at hx; omega

/-- C8.  In every scan result the elements' `start_line` values are
strictly increasing in scan order. -/
theorem c8_start_lines_increasing (content : String) :
    ((parseElems content).map Elem.line).Pairwise (· < ·) := by
  have h := scanLines_sorted (splitNl content.data) (initSt (splitNl content.data).length) 1
    (by simp [scanElems, initSt]) (by simp [scanElems, initSt])
  exact h

/-! ### Matcher equation lemmas (all definitional) -/

lemma mat_seq_eqn (cs : List Char) (a b : Rx) (i : Nat) (cp : Caps)
    (k : Nat → Caps → Option (Nat × Caps)) :
    mat cs (.seq a b) i cp k = mat cs a i cp (fun j c2 => mat cs b j c2 k) := rfl

lemma mat_grp_eqn (cs : List Char) (n : Nat) (a : Rx) (i : Nat) (cp : Caps)
    (k : Nat → Caps → Option (Nat × Caps)) :
    mat cs (.grp n a) i cp k = mat cs a i cp (fun j c2 => k j (setCap n (i, j) c2)) := rfl

lemma mat_litI_eqn (cs s : List Char) (i : Nat) (cp : Caps)
    (k : Nat → Caps → Option (Nat × Caps)) :
    mat cs (.litI s) i cp k = if litAtI cs i s then k (i + s.length) cp else none := rfl

lemma mat_lit_eqn (cs s : List Char) (i : Nat) (cp : Caps)
    (k : Nat → Caps → Option (Nat × Caps)) :
    mat cs (.lit s) i cp k = if litAt cs i s then k (i + s.length) cp else none := rfl

lemma mat_alt_eqn (cs : List Char) (a b : Rx) (i : Nat) (cp : Caps)
    (k : Nat → Caps → Option (Nat × Caps)) :
    mat cs (.alt a b) i cp k =
      (match mat cs a i cp k with
       | some r => some r
       | none => mat cs b i cp k) := rfl

/-- Success of the matcher always factors through its continuation. -/
lemma mat_some {cs : List Char} (rx : Rx) {i : Nat} {cp : Caps}
    {k : Nat → Caps → Option (Nat × Caps)} {r : Nat × Caps}
    (h : mat cs rx i cp k = some r) : ∃ j cp2, k j cp2 = some r := by
  induction rx generalizing i cp k with
  | eps => exact ⟨i, cp, h⟩
  | lit s =>
      rw [mat_lit_eqn] at h
      split at h
      · exact ⟨_, _, h⟩
      · exact absurd h (by simp)
  | litI s =>
      rw [mat_litI_eqn] at h
      split at h
      · exact ⟨_, _, h⟩
      · exact absurd h (by simp)
  | cls p =>
      rw [show mat cs (.cls p) i cp k =
          (match cs.drop i with
           | [] => none
           | c :: _ => if p c then k (i + 1) cp else none) from rfl] at h
      split at h
      · exact absurd h (by simp)
      · split at h
        · exact ⟨_, _, h⟩
        · exact absurd h (by simp)
  | star p g =>
      simp only [mat] at h
      rw [List.findSome?_eq_some_iff] at h
      obtain ⟨l1, a, l2, -, ha, -⟩ := h
      exact ⟨a, cp, ha⟩
  | seq a b iha ihb =>
      rw [mat_seq_eqn] at h
      obtain ⟨j, c2, hj⟩ := iha h
      exact ihb hj
  | alt a b iha ihb =>
      rw [mat_alt_eqn] at h
      split at h
      next r' heq =>
        injection h with h2
        subst h2
        exact iha heq
      next => exact ihb h
  | grp n a iha =>
      rw [mat_grp_eqn] at h
      obtain ⟨j, c2, hj⟩ := iha h
      exact ⟨j, setCap n (i, j) c2, hj⟩
  | nla a iha =>
      rw [show mat cs (.nla a) i cp k =
          (match mat cs a i cp (fun j cp2 => some (j, cp2)) with
           | some _ => none
           | none => k i cp) from rfl] at h
      split at h
      · exact absurd h (by simp)
      · exact ⟨i, cp, h⟩
  | eos =>
      rw [show mat cs .eos i cp k = if i = cs.length then k i cp else none from rfl] at h
      split at h
      · exact ⟨i, cp, h⟩
      · exact absurd h (by simp)

/-- Peeling one sequencing step off a successful match. -/
lemma mat_seq_some {cs : List Char} {a b : Rx} {i : Nat} {cp : Caps}
    {k : Nat → Caps → Option (Nat × Caps)} {r : Nat × Caps}
    (h : mat cs (.seq a b) i cp k = some r) :
    ∃ j cp2, mat cs b j cp2 k = some r := by
  rw [mat_seq_eqn] at h
  obtain ⟨j, c2, hj⟩ := mat_some a h
  exact ⟨j, c2, hj⟩

/-- A successful `RETURN_PATTERN` match needs a semicolon in the
subject: the pattern ends with the literal `;`. -/
lemma ret_match_has_semicolon (cs : List Char) (r : Nat × Caps)
    (h : topMatch RETURN_PATTERN cs = some r) : ';' ∈ cs := by
  simp only [topMatch, RETURN_PATTERN, rxcat, List.foldr_cons, List.foldr_nil] at h
  obtain ⟨j1, c1, h⟩ := mat_seq_some h
  obtain ⟨j2, c2, h⟩ := mat_seq_some h
  obtain ⟨j3, c3, h⟩ := mat_seq_some h
  obtain ⟨j4, c4, h⟩ := mat_seq_some h
  obtain ⟨j5, c5, h⟩ := mat_seq_some h
  rw [mat_seq_eqn, mat_lit_eqn] at h
  split at h
  next hlit =>
    simp only [litAt, decide_eq_true_eq] at hlit
    have hmem : ';' ∈ (cs.drop j5).take (";".data.length) := by
      rw [hlit]
      exact List.mem_cons_self _ _
    exact List.mem_of_mem_drop (List.mem_of_mem_take hmem)
  next => exact absurd h (by simp)

/-! ### Failure of the condition/return patterns on return-shaped lines -/

lemma isPyWS_cases (w : Char) (hw : isPyWS w = true) :
    w = ' ' ∨ w = '\t' ∨ w = '\n' ∨ w = '\r' ∨ w = '\x0b' ∨ w = '\x0c' := by
  simp only [isPyWS, Bool.or_eq_true, decide_eq_true_eq] at hw
  tauto

/-- A whitespace character never lowers to one of the keyword heads. -/
lemma ws_toLower_ne (w : Char) (hw : isPyWS w = true) (c : Char)
    (hc : c = 'r' ∨ c = 'i' ∨ c = 'e') : w.toLower ≠ c := by
  rcases isPyWS_cases w hw with h | h | h | h | h | h <;>
    rcases hc with hc | hc | hc <;> subst h <;> subst hc <;> decide

/-- A case-insensitive literal fails when the first subject character
does not lower to the literal's head. -/
lemma litAtI_false_head_drop (cs : List Char) (j : Nat) (b c : Char) (t2 s2 : List Char)
    (hdrop : cs.drop j = b :: t2) (hne : b.toLower ≠ c) :
    litAtI cs j (c :: s2) = false := by
  simp only [litAtI, decide_eq_false_iff_not]
  rw [hdrop, List.length_cons, List.take_succ_cons, List.map_cons]
  intro heq
  injection heq with h1 _
  exact hne h1

lemma mat_litI_none (cs s : List Char) (i : Nat) (cp : Caps)
    (K : Nat → Caps → Option (Nat × Caps)) (h : litAtI cs i s = false) :
    mat cs (.litI s) i cp K = none := by
  rw [mat_litI_eqn, h]
  simp

lemma mat_litI_head_none (cs : List Char) (j : Nat) (b c : Char) (t2 s2 : List Char)
    (cp : Caps) (K : Nat → Caps → Option (Nat × Caps))
    (hdrop : cs.drop j = b :: t2) (hne : b.toLower ≠ c) :
    mat cs (.litI (c :: s2)) j cp K = none :=
  mat_litI_none cs (c :: s2) j cp K (litAtI_false_head_drop cs j b c t2 s2 hdrop hne)

lemma mat_alt_none (cs : List Char) (a b : Rx) (i : Nat) (cp : Caps)
    (K : Nat → Caps → Option (Nat × Caps))
    (ha : mat cs a i cp K = none) (hb : mat cs b i cp K = none) :
    mat cs (.alt a b) i cp K = none := by
  rw [mat_alt_eqn, ha, hb]

/-- Length of the leading whitespace run of `ws ++ c :: t` with `ws`
all whitespace and `c` not. -/
lemma runLen_ws (ws t : List Char) (c : Char) (hws : ∀ x ∈ ws, isPyWS x = true)
    (hc : isPyWS c = false) : runLen isPyWS (ws ++ c :: t) 0 = ws.length := by
  simp only [runLen, List.drop_zero]
  induction ws with
  | nil =>
      rw [List.nil_append, List.takeWhile_cons_of_neg (by simp [hc])]
  | cons w wsl ih =>
      rw [List.cons_append, List.takeWhile_cons_of_pos (hws w (List.mem_cons_self w wsl))]
      simp only [List.length_cons, ih (fun x hx => hws x (List.mem_cons_of_mem w hx))]

/-- If the continuation after a leading greedy `\s*` fails at every
candidate split point, the whole pattern fails. -/
lemma mat_lead_ws_none (cs : List Char) (R : Rx) (cp : Caps)
    (K : Nat → Caps → Option (Nat × Caps))
    (hall : ∀ j, j ≤ runLen isPyWS cs 0 → mat cs R j cp K = none) :
    mat cs (.seq (.star isPyWS true) R) 0 cp K = none := by
  have hrw : mat cs (.seq (.star isPyWS true) R) 0 cp K =
      (((List.range (runLen isPyWS cs 0 + 1)).reverse).map (0 + ·)).findSome?
        (fun j => mat cs R j cp K) := rfl
  rw [hrw, List.findSome?_eq_none_iff]
  intro x hx
  simp only [List.mem_map, List.mem_reverse, List.mem_range] at hx
  obtain ⟨a, ha, rfl⟩ := hx
  exact hall (0 + a) (by omega)

/-- The head of `(ws ++ c :: t).drop j` for `j ≤ |ws|`: either a
whitespace character of `ws`, or exactly `c` at the boundary. -/
lemma drop_append_head (ws t : List Char) (c : Char) (j : Nat)
    (hws : ∀ x ∈ ws, isPyWS x = true) (hj : j ≤ ws.length) :
    ∃ b t2, (ws ++ c :: t).drop j = b :: t2 ∧
      (isPyWS b = true ∨ (j = ws.length ∧ b = c)) := by
  rcases Nat.eq_or_lt_of_le hj with heq | hlt
  · subst heq
    exact ⟨c, t, List.drop_left ws (c :: t), Or.inr ⟨rfl, rfl⟩⟩
  · have hd1 : (ws ++ c :: t).drop j = ws.drop j ++ c :: t :=
      List.drop_append_of_le_length (le_of_lt hlt)
    have hd2 : ws.drop j = ws.get ⟨j, hlt⟩ :: ws.drop (j + 1) :=
      List.drop_eq_getElem_cons hlt
    refine ⟨ws.get ⟨j, hlt⟩, ws.drop (j + 1) ++ c :: t, ?_,
      Or.inl (hws _ (List.get_mem ws j hlt))⟩
    rw [hd1, hd2]
    rfl

/-- Tail of `CONDITION_PATTERN` after the leading `\s*` and the
keyword-alternation group. -/
def condAlt : Rx := .alt (.litI "if".data) (.alt (.litI "else if".data) (.litI "else".data))

def condTail : Rx := rxcat [
  .star isPyWS true,
  ropt (.grp 2 (rxcat [.lit "(".data, .star anyCh true, .lit ")".data])),
  .star isPyWS true,
  ropt (.lit "\x7b".data)]

/-- The condition pattern fails on any line that is whitespace followed
by a character lowering to neither `i` nor `e`. -/
lemma condMatch_ws_head (ws t : List Char) (c : Char)
    (hws : ∀ x ∈ ws, isPyWS x = true) (hc : isPyWS c = false)
    (hi : c.toLower ≠ 'i') (he : c.toLower ≠ 'e') :
    condMatch (ws ++ c :: t) = none := by
  have hTop : topMatch CONDITION_PATTERN (ws ++ c :: t) = none := by
    show mat (ws ++ c :: t) (.seq (.star isPyWS true) (.seq (.grp 1 condAlt) condTail)) 0
      emptyCaps (fun j cp => some (j, cp)) = none
    apply mat_lead_ws_none
    intro j hj
    rw [runLen_ws ws t c hws hc] at hj
    obtain ⟨b, t2, hdropj, hb⟩ := drop_append_head ws t c j hws hj
    have hbi : b.toLower ≠ 'i' := by
      rcases hb with hb | ⟨-, rfl⟩
      · exact ws_toLower_ne b hb 'i' (Or.inr (Or.inl rfl))
      · exact hi
    have hbe : b.toLower ≠ 'e' := by
      rcases hb with hb | ⟨-, rfl⟩
      · exact ws_toLower_ne b hb 'e' (Or.inr (Or.inr rfl))
      · exact he
    rw [mat_seq_eqn, mat_grp_eqn,
      show condAlt = .alt (.litI "if".data) (.alt (.litI "else if".data) (.litI "else".data))
        from rfl]
    apply mat_alt_none
    · exact mat_litI_head_none _ j b 'i' t2 "f".data _ _ hdropj hbi
    · apply mat_alt_none
      · exact mat_litI_head_none _ j b 'e' t2 "lse if".data _ _ hdropj hbe
      · exact mat_litI_head_none _ j b 'e' t2 "lse".data _ _ hdropj hbe
  simp [condMatch, hTop]

/-- Tail of `RETURN_PATTERN` after the keyword and the mandatory
whitespace class. -/
def retTail : Rx := rxcat [.grp 1 (plus anyCh false), .star isPyWS true, .lit ";".data]

/-- The return pattern fails on a line that is exactly whitespace
followed by `return;`: the pattern demands whitespace after the
keyword before any expression. -/
lemma retMatch_ws_bare (ws : List Char) (hws : ∀ x ∈ ws, isPyWS x = true) :
    retMatch (ws ++ "return;".data) = none := by
  have hdropA : (ws ++ "return;".data).drop ws.length = "return;".data :=
    List.drop_left ws _
  have hTop : topMatch RETURN_PATTERN (ws ++ "return;".data) = none := by
    show mat (ws ++ "return;".data)
      (.seq (.star isPyWS true)
        (.seq (.litI "return".data) (.seq (plus isPyWS true) retTail))) 0
      emptyCaps (fun j cp => some (j, cp)) = none
    apply mat_lead_ws_none
    intro j hj
    have hr : runLen isPyWS (ws ++ "return;".data) 0 = ws.length := by
      rw [show ("return;".data : List Char) = 'r' :: "eturn;".data from rfl]
      exact runLen_ws ws _ 'r' hws (by decide)
    rw [hr] at hj
    rcases Nat.eq_or_lt_of_le hj with heq | hlt
    · subst heq
      have hlit : litAtI (ws ++ "return;".data) ws.length "return".data = true := by
        have e : litAtI (ws ++ "return;".data) ws.length "return".data =
            decide (((( ws ++ "return;".data).drop ws.length).take
              "return".data.length).map Char.toLower = "return".data) := rfl
        rw [e, hdropA]
        rfl
      have e1 : mat (ws ++ "return;".data)
          (.seq (.litI "return".data) (.seq (plus isPyWS true) retTail)) ws.length
          emptyCaps (fun j cp => some (j, cp)) =
          if litAtI (ws ++ "return;".data) ws.length "return".data then
            mat (ws ++ "return;".data) (.seq (plus isPyWS true) retTail)
              (ws.length + "return".data.length) emptyCaps (fun j cp => some (j, cp))
          else none := rfl
      rw [e1, hlit, if_pos rfl]
      have hdrop2 : (ws ++ "return;".data).drop (ws.length + "return".data.length) = [';'] := by
        rw [show ws.length + "return".data.length = ws.length + 6 from rfl,
          show List.drop (ws.length + 6) (ws ++ "return;".data) =
            List.drop 6 (List.drop ws.length (ws ++ "return;".data))
            from (List.drop_drop 6 ws.length _).symm,
          hdropA]
        rfl
      have e2 : mat (ws ++ "return;".data) (.seq (plus isPyWS true) retTail)
          (ws.length + "return".data.length) emptyCaps (fun j cp => some (j, cp)) =
          (match (ws ++ "return;".data).drop (ws.length + "return".data.length) with
           | [] => none
           | ch :: _ =>
               if isPyWS ch then
                 mat (ws ++ "return;".data) (.seq (.star isPyWS true) retTail)
                   (ws.length + "return".data.length + 1) emptyCaps
                   (fun j cp => some (j, cp))
               else none) := rfl
      rw [e2, hdrop2]
      simp [show isPyWS ';' = false from rfl]
    · obtain ⟨b, t2, hdropj, hb⟩ := drop_append_head ws _ 'r' j hws (le_of_lt hlt)
      have hbr : b.toLower ≠ 'r' := by
        rcases hb with hb | ⟨heq2, -⟩
        · exact ws_toLower_ne b hb 'r' (Or.inl rfl)
        · omega
      rw [mat_seq_eqn]
      exact mat_litI_head_none _ j b 'r' t2 "eturn".data _ _ hdropj hbr
  simp [retMatch, hTop]

/-- C10.  While an element is open, a line whose trimmed form is the
bare `return;`, or a line whose trimmed form starts with `return` but
carries no semicolon at all, never produces a ReturnRecord and is not
removed from `unprocessed_lines`: the scanner step leaves the element
list, the recorded returns and the unprocessed set unchanged (the line
can at most close the element through its braces). -/
theorem c10_return_shapes_unrecognized (st : ScanSt) (cf : Elem) (ln : Nat) (l : List Char)
    (hcur : st.current = some cf)
    (hline : pyStripWS l = "return;".data ∨
      ((∃ t2, pyStripWS l = "return".data ++ t2) ∧ ';' ∉ l)) :
    scanElems (stepLine st ln l) = scanElems st ∧
    (stepLine st ln l).unprocessed = st.unprocessed ∧
    (scanElems (stepLine st ln l)).flatMap Elem.returns =
      (scanElems st).flatMap Elem.returns := by
  have hsplit : List.takeWhile isPyWS (pyRstrip l) ++ pyStripWS l = pyRstrip l :=
    List.takeWhile_append_dropWhile isPyWS (pyRstrip l)
  have hws : ∀ x ∈ List.takeWhile isPyWS (pyRstrip l), isPyWS x = true :=
    fun x hx => List.mem_takeWhile_imp hx
  have hcm : condMatch (pyRstrip l) = none := by
    rcases hline with ha | ⟨⟨t2, hb⟩, -⟩
    · rw [← hsplit, ha, show ("return;".data : List Char) = 'r' :: "eturn;".data from rfl]
      exact condMatch_ws_head _ _ 'r' hws (by decide) (by decide) (by decide)
    · rw [← hsplit, hb,
        show ("return".data ++ t2 : List Char) = 'r' :: ("eturn".data ++ t2) from rfl]
      exact condMatch_ws_head _ _ 'r' hws (by decide) (by decide) (by decide)
  have hrm : retMatch (pyRstrip l) = none := by
    rcases hline with ha | ⟨-, hsemi⟩
    · rw [← hsplit, ha]
      exact retMatch_ws_bare _ hws
    · cases hr : retMatch (pyRstrip l) with
      | none => rfl
      | some v =>
          exfalso
          have hTop : ∃ r, topMatch RETURN_PATTERN (pyRstrip l) = some r := by
            cases ht : topMatch RETURN_PATTERN (pyRstrip l) with
            | none => simp [retMatch, ht] at hr
            | some rc => exact ⟨rc, rfl⟩
          obtain ⟨r, hTop⟩ := hTop
          have hsc : ';' ∈ pyRstrip l := ret_match_has_semicolon _ r hTop
          have hmem : ';' ∈ l := by
            have h1 : ';' ∈ l.reverse.dropWhile isPyWS := List.mem_reverse.mp hsc
            exact List.mem_reverse.mp (List.Sublist.mem h1 (List.dropWhile_sublist _))
          exact hsemi hmem
  by_cases hd : st.bracket_depth + (countCh '\x7b' l : Int) - (countCh '\x7d' l : Int) ≤ 0
  · rw [stepLine_close st cf ln l hcur hd]
    exact ⟨by simp [scanElems, hcur], rfl, by simp [scanElems, hcur]⟩
  · refine ⟨?_, ?_, ?_⟩ <;> simp [stepLine, scanElems, hcur, hd, hcm, hrm]

/-- C10 witness: a bare `return;` inside an open element at depth 1. -/
theorem c10_return_shapes_witness :
    (openDepth1St.current = some sampleElem ∧
      (pyStripWS "return;".data = "return;".data ∨
        ((∃ t2, pyStripWS "return;".data = "return".data ++ t2) ∧
          ';' ∉ "return;".data))) ∧
    (scanElems (stepLine openDepth1St 2 "return;".data) = scanElems openDepth1St ∧
      (stepLine openDepth1St 2 "return;".data).unprocessed = openDepth1St.unprocessed ∧
      (scanElems (stepLine openDepth1St 2 "return;".data)).flatMap Elem.returns =
        (scanElems openDepth1St).flatMap Elem.returns) :=
  ⟨⟨rfl, Or.inl rfl⟩,
    c10_return_shapes_unrecognized openDepth1St sampleElem 2 "return;".data rfl (Or.inl rfl)⟩

end ScoreTesting
